import Mathlib

/-!
Verification of the First-Classness (FC) codon-usage statistic scripts.

Shallow embedding of the numeric core of the repository:

* `scripts/fc_checker.py` : `to_rscu`, `sigma_ratio`, the main cohort loop
  (`ratiosOf`), the shuffled-orbit null model (`nullTrialValue`) and the
  empirical p-value (`pFc`).
* `scripts/simple_null_test.py` : the per-trial recomputation of the cohort
  median under a shuffled orbit assignment (`rowContrib`, `trialMedian`,
  `simpleNullRatios`, `simpleNullP`) and the hard-wired `real_orbits` table
  (`realOrbits`).
* `scripts/agg_codon_by_taxid.py` : the (Taxid, Organelle) accumulation loop
  (`aggStep`, `aggTable`, `outCodons`).
* `scripts/cds_to_species_hardwired.py` / `agg_codon_by_taxid.py` : chunked
  per-key aggregation (`groupSum`, `mergeSums`).

Counts and RSCU values are modelled as exact rationals; NumPy standard
deviations are `Real.sqrt` of the exact sample variance, and a NumPy `nan`
result (a skipped / undefined value) is modelled as `none`.  Python dicts
keyed by orbit label, filled by `setdefault(..).append(..)` while scanning
the codon list, are modelled by `firstOccs` (labels in first-occurrence
order) together with `classValues` (the values of one label class in scan
order), which is exactly the association list such a dict holds.
-/

set_option maxRecDepth 10000

/-- CODON_ORDER from `fc_checker.py` line 26: `[a+b+c for a in "UCAG" for b in
"UCAG" for c in "UCAG"]`. -/
def CODON_ORDER : List String :=
  ["U", "C", "A", "G"].flatMap fun a =>
    ["U", "C", "A", "G"].flatMap fun b =>
      ["U", "C", "A", "G"].map fun c => a ++ b ++ c

/-- Model of `np.mean` of a list of rationals (0 on the empty list, which NumPy would
flag; all uses in the scripts are on nonempty lists). -/
def listMean (l : List ℚ) : ℚ := l.sum / l.length

/-- The square of `np.std(l, ddof=1)`: the sample variance with denominator
`n - 1`.  `np.std(l, ddof=1) = Real.sqrt (sampleVar l)`, and
`np.std(l, ddof=1) == 0` iff `sampleVar l = 0`. -/
def sampleVar (l : List ℚ) : ℚ :=
  (l.map fun x => (x - listMean l) ^ 2).sum / ((l.length : ℚ) - 1)

/-- Function `to_rscu` from `fc_checker.py` lines 46-51: `total = counts.sum()`; the
all-NaN vector returned when `total == 0` is modelled as `none`; otherwise
`freq[i] * degen[CODON_ORDER[i]]` where `degen` is the orbit map itself
(`DEGEN = {c: ORBIT[c] for c in CODON_ORDER}`, line 79), i.e. the multiplier
is the numeric value of the codon's orbit label.  `labels` is the orbit map
as a list aligned with `CODON_ORDER`. -/
def to_rscu (counts : List ℚ) (labels : List ℤ) : Option (List ℚ) :=
  if counts.sum = 0 then none
  else some (counts.zipWith (fun (c : ℚ) (ℓ : ℤ) => c / counts.sum * (ℓ : ℚ)) labels)

/-- Keys of a Python dict filled with `setdefault` while scanning `l`:
the distinct labels in first-occurrence order. -/
def firstOccs (l : List ℤ) : List ℤ :=
  l.foldl (fun acc x => if x ∈ acc then acc else acc ++ [x]) []

/-- The value list a label's dict entry holds after the scan: the first
components of the pairs carrying that label, in scan order. -/
def classValues (pairs : List (ℚ × ℤ)) (ℓ : ℤ) : List ℚ :=
  (pairs.filter fun p => decide (p.2 = ℓ)).map Prod.fst

/-- The `groups` dict of `sigma_ratio` (`fc_checker.py` lines 55-57):
`for v, c in zip(rscu, CODON_ORDER): groups.setdefault(orbit[c], []).append(v)`,
read out in dict (= insertion) order. -/
def groupsOf (rscu : List ℚ) (labels : List ℤ) : List (List ℚ) :=
  (firstOccs ((rscu.zip labels).map Prod.snd)).map (classValues (rscu.zip labels))

/-- List `intra = [x - np.mean(v) for v in groups.values() for x in v]`
(`fc_checker.py` line 58). -/
def intraOf (groups : List (List ℚ)) : List ℚ :=
  (groups.map fun v => v.map fun x => x - listMean v).flatten

/-- List `inter = [np.mean(v) for v in groups.values() for _ in v]`
(`fc_checker.py` line 59). -/
def interOf (groups : List (List ℚ)) : List ℚ :=
  (groups.map fun v => v.map fun _ => listMean v).flatten

/-- Function `sigma_ratio` from `fc_checker.py` lines 54-61: `nan` (here `none`) when
`np.std(inter, ddof=1) == 0`, else `np.std(intra, ddof=1) / np.std(inter, ddof=1)`. -/
noncomputable def sigma_ratio (rscu : List ℚ) (labels : List ℤ) : Option ℝ :=
  if sampleVar (interOf (groupsOf rscu labels)) = 0 then none
  else some (Real.sqrt (sampleVar (intraOf (groupsOf rscu labels)) : ℚ) /
             Real.sqrt (sampleVar (interOf (groupsOf rscu labels)) : ℚ))

/-- The intra set exactly as the specification words it: for each codon, its
RSCU value's deviation from its orbit-label group's mean. -/
def specIntra (rscu : List ℚ) (labels : List ℤ) : List ℚ :=
  (rscu.zip labels).map fun p => p.1 - listMean (classValues (rscu.zip labels) p.2)

/-- The inter set exactly as the specification words it: each group's mean
repeated once per member codon of that group. -/
def specInter (rscu : List ℚ) (labels : List ℤ) : List ℚ :=
  (rscu.zip labels).map fun p => listMean (classValues (rscu.zip labels) p.2)

/-- The dispersion ratio exactly as the specification words it: sample standard
deviation (ddof=1) of the intra set over sample standard deviation (ddof=1) of
the inter set, undefined when the latter is zero. -/
noncomputable def specRatio (rscu : List ℚ) (labels : List ℤ) : Option ℝ :=
  if sampleVar (specInter rscu labels) = 0 then none
  else some (Real.sqrt (sampleVar (specIntra rscu labels) : ℚ) /
             Real.sqrt (sampleVar (specInter rscu labels) : ℚ))

/-- The cohort loop of `fc_checker.py` main, lines 85-96: per row, skip if the
RSCU vector is NaN (zero total), else compute `sigma_ratio` and append it when
finite.  The collected `ratios` list. -/
noncomputable def ratiosOf (rows : List (List ℚ)) (labels : List ℤ) : List ℝ :=
  rows.filterMap fun row => (to_rscu row labels).bind fun v => sigma_ratio v labels

/-- Insertion step of an insertion sort on reals (used to model
`np.median`'s internal sort). -/
noncomputable def insertR (x : ℝ) : List ℝ → List ℝ
  | [] => [x]
  | y :: ys => if x ≤ y then x :: y :: ys else y :: insertR x ys

/-- Sorting a list of reals (model of `np.median`'s internal sort). -/
noncomputable def sortR (l : List ℝ) : List ℝ := l.foldr insertR []

/-- Model of `np.median` on a nonempty list: middle element of the sorted list, or the
average of the two middle elements for even length. -/
noncomputable def npMedian (l : List ℝ) : ℝ :=
  if l.length % 2 = 1 then (sortR l).getD (l.length / 2) 0
  else ((sortR l).getD (l.length / 2 - 1) 0 + (sortR l).getD (l.length / 2) 0) / 2

/-- The reported cohort median, `none` when there are no valid ratios (in
which case `fc_checker.py` aborts at line 98 instead of reporting one). -/
noncomputable def npMedianOpt (l : List ℝ) : Option ℝ :=
  if l.isEmpty then none else some (npMedian l)

/-- One trial of the `--null` loop of `fc_checker.py`, lines 118-124: the body
duplicates `sigma_ratio`, but appends the constant `1.0` per codon
(`groups.setdefault(fake[c], []).append(1.0)`) instead of any recomputed RSCU
value, so the trial value is `sigma_ratio` of the all-ones vector under the
shuffled assignment `fake` (and `np.nan`, here `none`, when the denominator
vanishes). -/
noncomputable def nullTrialValue (fake : List ℤ) : Option ℝ :=
  sigma_ratio (List.replicate 64 1) fake

/-- The empirical p-value of `fc_checker.py` line 127:
`(sum(n <= med for n in null) + 1) / (len(null) + 1)`, where `null` is the
list of finite null values. -/
noncomputable def pFc (null : List ℝ) (med : ℝ) : ℝ :=
  (((null.filter fun n => decide (n ≤ med)).length : ℝ) + 1) / ((null.length : ℝ) + 1)

/-- Table `real_orbits` hardwired in `simple_null_test.py` lines 21-24, aligned with
`CODON_ORDER`. -/
def realOrbits : List ℤ :=
  [2, 2, 6, 6, 6, 6, 6, 6, 2, 2, 3, 3, 2, 2, 3, 1,
   6, 6, 6, 6, 4, 4, 4, 4, 2, 2, 2, 2, 6, 6, 6, 6,
   3, 3, 3, 1, 4, 4, 4, 4, 2, 2, 2, 2, 6, 6, 6, 6,
   4, 4, 4, 4, 4, 4, 4, 4, 2, 2, 2, 2, 4, 4, 4, 4]

/-- Constant `OBSERVED = 4.810` hardwired in `simple_null_test.py` line 9. -/
noncomputable def OBSERVED : ℝ := 481 / 100

/-- Vector `rscu = (row / row.sum()) * fake_orbits` from `simple_null_test.py`
lines 46-47. -/
def rscuSN (row : List ℚ) (fake : List ℤ) : List ℚ :=
  row.zipWith (fun (c : ℚ) (ℓ : ℤ) => c / row.sum * (ℓ : ℚ)) fake

/-- The groups of `simple_null_test.py` lines 50-52 restricted to the
multi-codon families kept by the `len(values) > 1` guard at line 58. -/
def multiGroups (row : List ℚ) (fake : List ℤ) : List (List ℚ) :=
  (groupsOf (rscuSN row fake) fake).filter fun v => decide (1 < v.length)

/-- The contribution of one organism row to one null trial in
`simple_null_test.py` lines 41-66: skip the row when its count total is zero
(line 42); build intra/inter from the multi-codon groups; when both have more
than one entry, the ratio `np.std(intra, ddof=1) / np.std(inter, ddof=1)` is
appended if finite (infinite/NaN exactly when the inter sample variance is
zero); otherwise nothing is appended. -/
noncomputable def rowContrib (fake : List ℤ) (row : List ℚ) : Option ℝ :=
  if row.sum = 0 then none
  else if 1 < (intraOf (multiGroups row fake)).length ∧
          1 < (interOf (multiGroups row fake)).length then
    if sampleVar (interOf (multiGroups row fake)) = 0 then none
    else some (Real.sqrt (sampleVar (intraOf (multiGroups row fake)) : ℚ) /
               Real.sqrt (sampleVar (interOf (multiGroups row fake)) : ℚ))
  else none

/-- One trial of `simple_null_test.py` lines 40-69: the median of the
per-organism ratios under the shuffled assignment `fake`, recorded only when
at least one organism produced a ratio (`if trial_ratios:` at line 68). -/
noncomputable def trialMedian (rows : List (List ℚ)) (fake : List ℤ) : Option ℝ :=
  if (rows.filterMap (rowContrib fake)).isEmpty then none
  else some (npMedian (rows.filterMap (rowContrib fake)))

/-- The `null_ratios` list of `simple_null_test.py`: one recorded cohort
median per trial; `trials` is the stream of shuffled label lists produced by
the seeded generator (`rng = np.random.default_rng(2025)`), and `rows` is the
`sample_data` drawn at line 18 by the unseeded `df.sample(...)`. -/
noncomputable def simpleNullRatios (trials : List (List ℤ)) (rows : List (List ℚ)) : List ℝ :=
  trials.filterMap fun fake => trialMedian rows fake

/-- Value `p_value = (null_ratios >= OBSERVED).mean()` from `simple_null_test.py`
line 76 (no +1/+1 correction); `none` models the NaN mean of an empty list. -/
noncomputable def simpleNullP (trials : List (List ℤ)) (rows : List (List ℚ)) : Option ℝ :=
  if (simpleNullRatios trials rows).isEmpty then none
  else some ((((simpleNullRatios trials rows).filter
                fun x => decide (OBSERVED ≤ x)).length : ℝ) /
             ((simpleNullRatios trials rows).length : ℝ))

/-- The number of codons sharing a given orbit label — the quantity the
specification calls `orbit_size`. -/
def labelClassSize (labels : List ℤ) (ℓ : ℤ) : ℕ :=
  (labels.filter fun x => decide (x = ℓ)).length

/-- Total count carried by one orbit-label class. -/
def classTotal (pairs : List (ℚ × ℤ)) (ℓ : ℤ) : ℚ :=
  ((pairs.filter fun q => decide (q.2 = ℓ)).map Prod.fst).sum

/-- The counts of the specification's example organism: AAA=10, AAG=10,
GUU=GUC=GUA=GUG=5, all other codons 0 (total 40). -/
def exCounts : List ℚ :=
  CODON_ORDER.map fun c =>
    if c = "AAA" ∨ c = "AAG" then 10
    else if c = "GUU" ∨ c = "GUC" ∨ c = "GUA" ∨ c = "GUG" then 5
    else 0

/-- An orbit map for the example: {AAA,AAG} a size-2 orbit (label 2),
{GUU,GUC,GUA,GUG} a size-4 orbit (label 4), and the remaining 58 codons one
size-58 orbit. -/
def exLabels : List ℤ :=
  CODON_ORDER.map fun c =>
    if c = "AAA" ∨ c = "AAG" then 2
    else if c = "GUU" ∨ c = "GUC" ∨ c = "GUA" ∨ c = "GUG" then 4
    else 58

/-- All-ones count row (64 codons, one count each). -/
def ones64 : List ℚ := List.replicate 64 1

/-- All-zero count row (an empty organism). -/
def zeros64 : List ℚ := List.replicate 64 0

/-- A constant orbit map: every codon carries label 5 (a single class). -/
def const5 : List ℤ := List.replicate 64 5

/-- The RSCU vector `to_rscu` produces for `ones64` under `const5`. -/
def rscu5 : List ℚ := List.replicate 64 (5 / 64)

/-- Per-key aggregation: sum of the values of all rows carrying key `k`
(the `groupby(key).sum()` of `cds_to_species_hardwired.py` line 70 and the
dict accumulation of `agg_codon_by_taxid.py` lines 118-124). -/
def groupSum {K V : Type} [DecidableEq K] [AddCommMonoid V]
    (rows : List (K × V)) (k : K) : V :=
  ((rows.filter fun r => decide (r.1 = k)).map Prod.snd).sum

/-- Merging two partial per-key aggregates: pointwise sum (the
`pd.concat([agg, batch_sum]).groupby(key).sum()` of
`cds_to_species_hardwired.py` line 71). -/
def mergeSums {K V : Type} [AddCommMonoid V] (f g : K → V) : K → V :=
  fun k => f k + g k

/-- One step of the aggregation loop of `agg_codon_by_taxid.py` lines 118-124:
for the row's (Taxid, Organelle) key, add its 64 codon counts to the
accumulator and bump `#CDS` by one; a key's initial accumulator is all zeros
(`counts.setdefault(key, {c: 0 ...})`, `acc.setdefault("#CDS", 0)`). -/
def aggStep (m : String × String → (Fin 64 → ℕ) × ℕ)
    (row : (String × String) × (Fin 64 → ℕ)) : String × String → (Fin 64 → ℕ) × ℕ :=
  fun k => if k = row.1 then (fun i => (m k).1 i + row.2 i, (m k).2 + 1) else m k

/-- The accumulator after the whole input has been scanned. -/
def aggTable (rows : List ((String × String) × (Fin 64 → ℕ))) :
    String × String → (Fin 64 → ℕ) × ℕ :=
  rows.foldl aggStep fun _ => (fun _ => 0, 0)

/-- The `#Codons` field written for key `k`
(`row["#Codons"] = sum(acc[c] for c in codon_cols)`, line 138). -/
def outCodons (rows : List ((String × String) × (Fin 64 → ℕ))) (k : String × String) : ℕ :=
  ∑ i : Fin 64, (aggTable rows k).1 i

theorem zipWith_eq_map_zip (f : ℚ → ℤ → ℚ) :
    ∀ (l₁ : List ℚ) (l₂ : List ℤ),
      List.zipWith f l₁ l₂ = (l₁.zip l₂).map fun p => f p.1 p.2
  | [], _ => by simp
  | _ :: _, [] => by simp
  | a :: l₁, b :: l₂ => by
    simp [List.zip_cons_cons, zipWith_eq_map_zip f l₁ l₂]

theorem getD_zipWith (f : ℚ → ℤ → ℚ) :
    ∀ (l₁ : List ℚ) (l₂ : List ℤ) (i : ℕ), i < l₁.length → i < l₂.length →
      (List.zipWith f l₁ l₂).getD i 0 = f (l₁.getD i 0) (l₂.getD i 0)
  | [], _, i, h₁, _ => by simp at h₁
  | _ :: _, [], i, _, h₂ => by simp at h₂
  | a :: l₁, b :: l₂, 0, _, _ => by simp
  | a :: l₁, b :: l₂, i + 1, h₁, h₂ => by
    simpa using getD_zipWith f l₁ l₂ i (by simpa using h₁) (by simpa using h₂)

theorem zipWith_replicate_left (f : ℚ → ℤ → ℚ) (a : ℚ) :
    ∀ (n : ℕ) (l : List ℤ), l.length ≤ n →
      List.zipWith f (List.replicate n a) l = l.map (f a)
  | _, [], _ => by simp
  | 0, b :: l, h => by simp at h
  | n + 1, b :: l, h => by
    simpa [List.replicate_succ] using
      zipWith_replicate_left f a n l (by simpa using h)

theorem listMean_all_eq {l : List ℚ} {c : ℚ} (hne : l ≠ [])
    (h : ∀ x ∈ l, x = c) : listMean l = c := by
  have hsum : l.sum = l.length • c := List.sum_eq_card_nsmul l c h
  have hlen : (l.length : ℚ) ≠ 0 := by
    simpa using List.length_pos.mpr hne |>.ne.symm
  rw [listMean, hsum, nsmul_eq_mul, mul_comm, mul_div_assoc, div_self hlen, mul_one]

theorem svar_all_eq {l : List ℚ} {c : ℚ} (h : ∀ x ∈ l, x = c) :
    sampleVar l = 0 := by
  rcases eq_or_ne l [] with rfl | hne
  · simp [sampleVar]
  · have hm : listMean l = c := listMean_all_eq hne h
    have hz : ∀ y ∈ l.map fun x => (x - listMean l) ^ 2, y = 0 := by
      intro y hy
      rcases List.mem_map.mp hy with ⟨x, hx, rfl⟩
      rw [h x hx, hm, sub_self]
      ring
    rw [sampleVar, List.sum_eq_card_nsmul _ 0 hz, smul_zero, zero_div]

theorem sum_nonneg_all_zero :
    ∀ {l : List ℚ}, (∀ x ∈ l, 0 ≤ x) → l.sum = 0 → ∀ x ∈ l, x = 0
  | [], _, _, x, hx => by simp at hx
  | a :: l, hpos, hsum, x, hx => by
    have ha : 0 ≤ a := hpos a (by simp)
    have hl : ∀ y ∈ l, 0 ≤ y := fun y hy => hpos y (by simp [hy])
    have hls : 0 ≤ l.sum := List.sum_nonneg hl
    rw [List.sum_cons] at hsum
    have ha0 : a = 0 := by linarith
    have hl0 : l.sum = 0 := by linarith
    rcases List.mem_cons.mp hx with rfl | hx
    · exact ha0
    · exact sum_nonneg_all_zero hl hl0 x hx

theorem svar_ne_zero {l : List ℚ} {a b : ℚ} (ha : a ∈ l) (hb : b ∈ l)
    (hab : a ≠ b) : sampleVar l ≠ 0 := by
  intro h0
  have hlen : 2 ≤ l.length := by
    rcases l with _ | ⟨x, _ | ⟨y, t⟩⟩
    · simp at ha
    · simp at ha hb
      exact absurd (ha.trans hb.symm) hab
    · simp [List.length_cons]
  have hden : ((l.length : ℚ) - 1) ≠ 0 := by
    have h2 : (2 : ℚ) ≤ (l.length : ℚ) := by exact_mod_cast hlen
    intro h
    linarith
  have hnum : (l.map fun x => (x - listMean l) ^ 2).sum = 0 := by
    by_contra hne
    exact hne (by
      have := h0
      rw [sampleVar, div_eq_zero_iff] at this
      tauto)
  have hz := @sum_nonneg_all_zero (l.map fun x => (x - listMean l) ^ 2)
    (by intro y hy; rcases List.mem_map.mp hy with ⟨x, _, rfl⟩; positivity)
    hnum
  have hae : (a - listMean l) ^ 2 = 0 := hz _ (List.mem_map_of_mem _ ha)
  have hbe : (b - listMean l) ^ 2 = 0 := hz _ (List.mem_map_of_mem _ hb)
  have : a = listMean l := by
    have := sq_eq_zero_iff.mp hae
    linarith [sub_eq_zero.mp this]
  have hbm : b = listMean l := by
    have := sq_eq_zero_iff.mp hbe
    linarith [sub_eq_zero.mp this]
  exact hab (this.trans hbm.symm)

theorem mem_firstOccs_go :
    ∀ (l : List ℤ) (acc : List ℤ) (x : ℤ),
      (x ∈ l.foldl (fun acc y => if y ∈ acc then acc else acc ++ [y]) acc) ↔
        x ∈ acc ∨ x ∈ l
  | [], acc, x => by simp
  | y :: l, acc, x => by
    rw [List.foldl_cons, mem_firstOccs_go l _ x]
    by_cases hy : y ∈ acc
    · simp only [if_pos hy, List.mem_cons]
      constructor
      · rintro (h | h)
        · exact Or.inl h
        · exact Or.inr (Or.inr h)
      · rintro (h | rfl | h)
        · exact Or.inl h
        · exact Or.inl hy
        · exact Or.inr h
    · simp only [if_neg hy, List.mem_append, List.mem_singleton, List.mem_cons]
      tauto

theorem mem_firstOccs {l : List ℤ} {x : ℤ} : x ∈ firstOccs l ↔ x ∈ l := by
  rw [firstOccs, mem_firstOccs_go]
  simp

theorem nodup_firstOccs_go :
    ∀ (l : List ℤ) (acc : List ℤ), acc.Nodup →
      (l.foldl (fun acc y => if y ∈ acc then acc else acc ++ [y]) acc).Nodup
  | [], acc, h => h
  | y :: l, acc, h => by
    rw [List.foldl_cons]
    by_cases hy : y ∈ acc
    · rw [if_pos hy]; exact nodup_firstOccs_go l acc h
    · rw [if_neg hy]
      exact nodup_firstOccs_go l _ (by simp [List.nodup_append, h, hy])

theorem nodup_firstOccs (l : List ℤ) : (firstOccs l).Nodup :=
  nodup_firstOccs_go l [] List.nodup_nil

theorem flatten_filter_perm {α : Type} (f : α → ℤ) :
    ∀ (labels : List ℤ) (l : List α), labels.Nodup →
      (∀ a ∈ l, f a ∈ labels) →
      ((labels.map fun b => l.filter fun a => decide (f a = b)).flatten).Perm l
  | [], l, _, hcov => by
    have : l = [] := List.eq_nil_iff_forall_not_mem.mpr fun a ha => by
      simpa using hcov a ha
    simp [this]
  | b :: bs, l, hnd, hcov => by
    rw [List.map_cons, List.flatten_cons]
    have hb : b ∉ bs := (List.nodup_cons.mp hnd).1
    have hbs : bs.Nodup := (List.nodup_cons.mp hnd).2
    have hmaps : bs.map (fun b' => l.filter fun a => decide (f a = b')) =
        bs.map (fun b' => (l.filter fun a => !decide (f a = b)).filter
          fun a => decide (f a = b')) := by
      apply List.map_congr_left
      intro b' hb'
      rw [List.filter_filter]
      apply List.filter_congr
      intro a _
      by_cases hfa : f a = b'
      · have hne : b' ≠ b := fun h => hb (h ▸ hb')
        simp [hfa, hne]
      · simp [hfa]
    rw [hmaps]
    have hcov' : ∀ a ∈ l.filter fun a => !decide (f a = b), f a ∈ bs := by
      intro a ha
      have hmem := List.mem_of_mem_filter ha
      have hne : ¬(f a = b) := by
        have := (List.mem_filter.mp ha).2
        simpa using this
      rcases List.mem_cons.mp (hcov a hmem) with h | h
      · exact absurd h hne
      · exact h
    have ih := flatten_filter_perm f bs (l.filter fun a => !decide (f a = b)) hbs hcov'
    exact (List.Perm.append_left _ ih).trans (List.filter_append_perm _ l)

theorem svar_congr {l l' : List ℚ} (h : l.Perm l') : sampleVar l = sampleVar l' := by
  have hlen := h.length_eq
  have hmean : listMean l = listMean l' := by rw [listMean, h.sum_eq, hlen, listMean]
  rw [sampleVar, sampleVar, hlen, hmean]
  congr 1
  exact List.Perm.sum_eq (h.map _)

theorem intraOf_perm (rscu : List ℚ) (labels : List ℤ) :
    (intraOf (groupsOf rscu labels)).Perm (specIntra rscu labels) := by
  have hperm := flatten_filter_perm (Prod.snd : ℚ × ℤ → ℤ)
    (firstOccs ((rscu.zip labels).map Prod.snd)) (rscu.zip labels)
    (nodup_firstOccs _)
    (fun p hp => mem_firstOccs.mpr (List.mem_map_of_mem _ hp))
  have hinner : ∀ ℓ : ℤ,
      (classValues (rscu.zip labels) ℓ).map
          (fun x => x - listMean (classValues (rscu.zip labels) ℓ)) =
        ((rscu.zip labels).filter fun p => decide (p.2 = ℓ)).map
          (fun p => p.1 - listMean (classValues (rscu.zip labels) p.2)) := by
    intro ℓ
    simp only [classValues, List.map_map]
    apply List.map_congr_left
    intro p hp'
    have h2 : p.2 = ℓ := by simpa using (List.mem_filter.mp hp').2
    simp [Function.comp, h2]
  rw [intraOf, groupsOf, List.map_map]
  have hfun : ((fun v => v.map fun x => x - listMean v) ∘ classValues (rscu.zip labels)) =
      fun ℓ => ((rscu.zip labels).filter fun p => decide (p.2 = ℓ)).map
        (fun p => p.1 - listMean (classValues (rscu.zip labels) p.2)) :=
    funext fun ℓ => hinner ℓ
  rw [hfun]
  have hsplit : ((firstOccs ((rscu.zip labels).map Prod.snd)).map
        fun ℓ => ((rscu.zip labels).filter fun p => decide (p.2 = ℓ)).map
          (fun p => p.1 - listMean (classValues (rscu.zip labels) p.2))) =
      ((firstOccs ((rscu.zip labels).map Prod.snd)).map
        fun ℓ => (rscu.zip labels).filter fun p => decide (p.2 = ℓ)).map
          (List.map fun p => p.1 - listMean (classValues (rscu.zip labels) p.2)) := by
    rw [List.map_map]
    rfl
  rw [hsplit, ← List.map_flatten]
  exact hperm.map _

theorem interOf_perm (rscu : List ℚ) (labels : List ℤ) :
    (interOf (groupsOf rscu labels)).Perm (specInter rscu labels) := by
  have hperm := flatten_filter_perm (Prod.snd : ℚ × ℤ → ℤ)
    (firstOccs ((rscu.zip labels).map Prod.snd)) (rscu.zip labels)
    (nodup_firstOccs _)
    (fun p hp => mem_firstOccs.mpr (List.mem_map_of_mem _ hp))
  have hinner : ∀ ℓ : ℤ,
      (classValues (rscu.zip labels) ℓ).map
          (fun _ => listMean (classValues (rscu.zip labels) ℓ)) =
        ((rscu.zip labels).filter fun p => decide (p.2 = ℓ)).map
          (fun p => listMean (classValues (rscu.zip labels) p.2)) := by
    intro ℓ
    simp only [classValues, List.map_map]
    apply List.map_congr_left
    intro p hp'
    have h2 : p.2 = ℓ := by simpa using (List.mem_filter.mp hp').2
    simp [Function.comp, h2]
  rw [interOf, groupsOf, List.map_map]
  have hfun : ((fun v => v.map fun _ => listMean v) ∘ classValues (rscu.zip labels)) =
      fun ℓ => ((rscu.zip labels).filter fun p => decide (p.2 = ℓ)).map
        (fun p => listMean (classValues (rscu.zip labels) p.2)) :=
    funext fun ℓ => hinner ℓ
  rw [hfun]
  have hsplit : ((firstOccs ((rscu.zip labels).map Prod.snd)).map
        fun ℓ => ((rscu.zip labels).filter fun p => decide (p.2 = ℓ)).map
          (fun p => listMean (classValues (rscu.zip labels) p.2))) =
      ((firstOccs ((rscu.zip labels).map Prod.snd)).map
        fun ℓ => (rscu.zip labels).filter fun p => decide (p.2 = ℓ)).map
          (List.map fun p => listMean (classValues (rscu.zip labels) p.2)) := by
    rw [List.map_map]
    rfl
  rw [hsplit, ← List.map_flatten]
  exact hperm.map _

/-- C1: for every RSCU vector and every orbit map, the FC dispersion ratio
computed by `fc_checker.py`'s `sigma_ratio` (insertion-ordered dict grouping)
equals the specification's description: partition the RSCU values into groups
by orbit label, take each member's deviation from its group mean as the intra
set and each group's mean repeated once per member as the inter set, and
divide the sample standard deviation (ddof=1) of the intra set by that of the
inter set (undefined when the latter is zero). -/
theorem sigma_ratio_matches_spec_dispersion (rscu : List ℚ) (labels : List ℤ) :
    sigma_ratio rscu labels = specRatio rscu labels := by
  have h1 : sampleVar (intraOf (groupsOf rscu labels)) = sampleVar (specIntra rscu labels) :=
    svar_congr (intraOf_perm rscu labels)
  have h2 : sampleVar (interOf (groupsOf rscu labels)) = sampleVar (specInter rscu labels) :=
    svar_congr (interOf_perm rscu labels)
  rw [sigma_ratio, specRatio, h1, h2]

theorem classValues_replicate {n : ℕ} {c : ℚ} {labels : List ℤ} {ℓ : ℤ} :
    ∀ x ∈ classValues ((List.replicate n c).zip labels) ℓ, x = c := by
  intro x hx
  rcases List.mem_map.mp hx with ⟨p, hp, rfl⟩
  obtain ⟨a, b⟩ := p
  have hmem := List.mem_of_mem_filter hp
  exact (List.mem_replicate.mp (List.of_mem_zip hmem).1).2

theorem interOf_const {n : ℕ} {c : ℚ} (labels : List ℤ) :
    ∀ x ∈ interOf (groupsOf (List.replicate n c) labels), x = c := by
  intro x hx
  rcases List.mem_flatten.mp hx with ⟨w, hw, hxw⟩
  rcases List.mem_map.mp hw with ⟨v, hv, rfl⟩
  rcases List.mem_map.mp hxw with ⟨y, hy, rfl⟩
  rcases List.mem_map.mp hv with ⟨ℓ, _, rfl⟩
  exact listMean_all_eq (List.ne_nil_of_mem hy) classValues_replicate

/-- C4: the `--null` trial loop of `fc_checker.py` (lines 118-124) does not
recompute the cohort FC-ratio summary under the shuffled assignment, as the
claim states; it appends the constant `1.0` per codon, so for every shuffled
assignment `fake` the recorded trial value is NaN (all inter entries are 1.0,
the ddof=1 standard deviation of the inter set is 0) — the null list is empty
for every input. -/
theorem fc_null_trial_always_nan (fake : List ℤ) : nullTrialValue fake = none := by
  have h0 : sampleVar (interOf (groupsOf (List.replicate 64 (1 : ℚ)) fake)) = 0 :=
    svar_all_eq (interOf_const fake)
  rw [nullTrialValue, sigma_ratio, if_pos h0]

/-- C7: an organism row whose 64 counts sum to zero gets the all-NaN RSCU
vector (`none`), is skipped by the cohort loop, and so contributes neither a
ratio to the valid-ratio list nor anything to the reported median. -/
theorem zero_total_excluded (counts : List ℚ) (labels : List ℤ)
    (xs ys : List (List ℚ)) (h : counts.sum = 0) :
    to_rscu counts labels = none ∧
    ratiosOf (xs ++ counts :: ys) labels = ratiosOf (xs ++ ys) labels ∧
    npMedianOpt (ratiosOf (xs ++ counts :: ys) labels) =
      npMedianOpt (ratiosOf (xs ++ ys) labels) := by
  have h1 : to_rscu counts labels = none := by rw [to_rscu, if_pos h]
  have h2 : ratiosOf (xs ++ counts :: ys) labels = ratiosOf (xs ++ ys) labels := by
    rw [ratiosOf, ratiosOf, List.filterMap_append, List.filterMap_append,
      List.filterMap_cons]
    simp [h1]
  exact ⟨h1, h2, congrArg npMedianOpt h2⟩

/-- Witness for C7 at the all-zero organism under the canonical orbit map. -/
theorem zero_total_excluded_witness :
    zeros64.sum = 0 ∧
    (to_rscu zeros64 realOrbits = none ∧
     ratiosOf ([] ++ zeros64 :: []) realOrbits = ratiosOf ([] ++ []) realOrbits ∧
     npMedianOpt (ratiosOf ([] ++ zeros64 :: []) realOrbits) =
       npMedianOpt (ratiosOf ([] ++ []) realOrbits)) := by
  have h : zeros64.sum = 0 := by rw [zeros64, List.sum_replicate, smul_zero]
  exact ⟨h, zero_total_excluded zeros64 realOrbits [] [] h⟩

/-- C8: an RSCU vector whose inter set has zero sample variance (equivalently,
zero ddof=1 standard deviation) gets `sigma_ratio = nan` (`none`), and the
organism is excluded from the collected ratios — never coerced to 0 or ∞. -/
theorem zero_inter_var_excluded (counts : List ℚ) (labels : List ℤ) (v : List ℚ)
    (xs ys : List (List ℚ)) (h1 : to_rscu counts labels = some v)
    (h2 : sampleVar (interOf (groupsOf v labels)) = 0) :
    sigma_ratio v labels = none ∧
    ratiosOf (xs ++ counts :: ys) labels = ratiosOf (xs ++ ys) labels := by
  have hs : sigma_ratio v labels = none := by rw [sigma_ratio, if_pos h2]
  refine ⟨hs, ?_⟩
  rw [ratiosOf, ratiosOf, List.filterMap_append, List.filterMap_append,
    List.filterMap_cons]
  simp [h1, hs]

/-- Witness for C8: under the constant orbit map (a single label class) every
organism's inter set is constant, so its sample variance is zero and the
all-ones organism is excluded. -/
theorem zero_inter_var_excluded_witness :
    to_rscu ones64 const5 = some rscu5 ∧
    sampleVar (interOf (groupsOf rscu5 const5)) = 0 ∧
    (sigma_ratio rscu5 const5 = none ∧
     ratiosOf ([] ++ ones64 :: []) const5 = ratiosOf ([] ++ []) const5) := by
  have hsum : ones64.sum = 64 := by rw [ones64, List.sum_replicate]; norm_num
  have hne : ones64.sum ≠ 0 := by rw [hsum]; norm_num
  have h1 : to_rscu ones64 const5 = some rscu5 := by
    rw [to_rscu, if_neg hne]
    have hz : List.zipWith (fun (c : ℚ) (ℓ : ℤ) => c / ones64.sum * (ℓ : ℚ)) ones64 const5 =
        List.replicate 64 ((1 : ℚ) / 64 * ((5 : ℤ) : ℚ)) := by
      rw [hsum]
      rw [show ones64 = List.replicate 64 (1 : ℚ) from rfl,
        show const5 = List.replicate 64 (5 : ℤ) from rfl, List.zipWith_replicate]
      norm_num
    rw [hz, rscu5]
    norm_num
  have h2 : sampleVar (interOf (groupsOf rscu5 const5)) = 0 :=
    svar_all_eq (interOf_const const5)
  exact ⟨h1, h2, zero_inter_var_excluded ones64 const5 rscu5 [] [] h1 h2⟩

/-- C3 (amended): `to_rscu` computes `RSCU_i = (count_i / total) * L_i` where
`L_i` is the numeric value of codon i's orbit label in the map — not the
number of codons sharing that label. -/
theorem rscu_formula_uses_label_value (counts : List ℚ) (labels : List ℤ)
    (htot : counts.sum ≠ 0) :
    to_rscu counts labels =
      some ((counts.zip labels).map fun p => p.1 / counts.sum * (p.2 : ℚ)) := by
  rw [to_rscu, if_neg htot, zipWith_eq_map_zip]

/-- Witness for the amended C3 at a concrete organism and map. -/
theorem rscu_formula_uses_label_value_witness :
    (([1, 3] : List ℚ).sum ≠ 0) ∧
    to_rscu [1, 3] [7, 9] =
      some ((([1, 3] : List ℚ).zip ([7, 9] : List ℤ)).map
        fun p => p.1 / ([1, 3] : List ℚ).sum * (p.2 : ℚ)) := by
  have h : ([1, 3] : List ℚ).sum ≠ 0 := by
    norm_num [List.sum_cons, List.sum_nil]
  exact ⟨h, rscu_formula_uses_label_value [1, 3] [7, 9] h⟩

/-- C3 (counterexample): under the canonical orbit map (labels are family
sizes), codon UUU carries label 2 but 18 codons share that label; the computed
RSCU of UUU for the all-ones organism is (1/64)*2 = 1/32, not the claimed
(1/64)*18. -/
theorem rscu_not_class_size_counterexample :
    (to_rscu ones64 realOrbits).map (fun r => r.getD 0 0) = some (1 / 32) ∧
    labelClassSize realOrbits 2 = 18 ∧
    realOrbits.getD 0 0 = 2 ∧
    ((1 : ℚ) / 32 ≠ 1 / 64 * 18) := by
  refine ⟨?_, by decide, by decide, by norm_num⟩
  have hsum : ones64.sum = 64 := by rw [ones64, List.sum_replicate]; norm_num
  have hne : ones64.sum ≠ 0 := by rw [hsum]; norm_num
  rw [to_rscu, if_neg hne, Option.map_some']
  rw [getD_zipWith _ _ _ _ (by rw [ones64]; simp) (by decide)]
  have e1 : ones64.getD 0 0 = 1 := rfl
  have e2 : realOrbits.getD 0 0 = 2 := rfl
  simp only [e1, e2, hsum]
  norm_num

/-- C2 (amended): for an organism whose counts are uniform within every
label class, under a map whose label values equal their class sizes, each
codon's RSCU equals its class's share of the total usage
(class total / grand total) — which is 1.0 only when the class carries the
whole total. -/
theorem rscu_uniform_class_share (counts : List ℚ) (labels : List ℤ)
    (huni : ∀ p ∈ counts.zip labels, ∀ q ∈ counts.zip labels, p.2 = q.2 → p.1 = q.1)
    (hsize : ∀ p ∈ counts.zip labels,
      p.2 = (((counts.zip labels).filter fun q => decide (q.2 = p.2)).length : ℤ))
    (htot : counts.sum ≠ 0) :
    to_rscu counts labels =
      some ((counts.zip labels).map
        fun p => classTotal (counts.zip labels) p.2 / counts.sum) := by
  rw [to_rscu, if_neg htot, zipWith_eq_map_zip]
  congr 1
  apply List.map_congr_left
  intro p hp
  have hall : ∀ x ∈ ((counts.zip labels).filter
      fun q => decide (q.2 = p.2)).map Prod.fst, x = p.1 := by
    intro x hx
    rcases List.mem_map.mp hx with ⟨q, hq, rfl⟩
    have hq2 : q.2 = p.2 := by simpa using (List.mem_filter.mp hq).2
    exact huni q (List.mem_of_mem_filter hq) p hp hq2
  have hct : classTotal (counts.zip labels) p.2 =
      ((((counts.zip labels).filter fun q => decide (q.2 = p.2)).length : ℚ)) * p.1 := by
    rw [classTotal, List.sum_eq_card_nsmul _ _ hall, List.length_map, nsmul_eq_mul]
  have hp2 : (p.2 : ℚ) =
      (((counts.zip labels).filter fun q => decide (q.2 = p.2)).length : ℚ) := by
    exact_mod_cast hsize p hp
  rw [hct, hp2]
  ring

/-- Witness for the amended C2 at a concrete uniform organism. -/
theorem rscu_uniform_class_share_witness :
    (∀ p ∈ ([3, 3] : List ℚ).zip ([2, 2] : List ℤ),
      ∀ q ∈ ([3, 3] : List ℚ).zip ([2, 2] : List ℤ), p.2 = q.2 → p.1 = q.1) ∧
    (∀ p ∈ ([3, 3] : List ℚ).zip ([2, 2] : List ℤ),
      p.2 = (((([3, 3] : List ℚ).zip ([2, 2] : List ℤ)).filter
        fun q => decide (q.2 = p.2)).length : ℤ)) ∧
    (([3, 3] : List ℚ).sum ≠ 0) ∧
    to_rscu [3, 3] [2, 2] =
      some ((([3, 3] : List ℚ).zip ([2, 2] : List ℤ)).map
        fun p => classTotal (([3, 3] : List ℚ).zip ([2, 2] : List ℤ)) p.2 /
          ([3, 3] : List ℚ).sum) := by
  have h1 : ∀ p ∈ ([3, 3] : List ℚ).zip ([2, 2] : List ℤ),
      ∀ q ∈ ([3, 3] : List ℚ).zip ([2, 2] : List ℤ), p.2 = q.2 → p.1 = q.1 := by decide
  have h2 : ∀ p ∈ ([3, 3] : List ℚ).zip ([2, 2] : List ℤ),
      p.2 = (((([3, 3] : List ℚ).zip ([2, 2] : List ℤ)).filter
        fun q => decide (q.2 = p.2)).length : ℤ) := by decide
  have h3 : ([3, 3] : List ℚ).sum ≠ 0 := by
    norm_num [List.sum_cons, List.sum_nil]
  exact ⟨h1, h2, h3, rscu_uniform_class_share [3, 3] [2, 2] h1 h2 h3⟩

/-- C2 (counterexample): the specification's example organism (AAA=10, AAG=10,
GUU=GUC=GUA=GUG=5, total 40) under the example orbit map gets RSCU(AAA) =
(10/40)*2 = 0.5, not the claimed 1.0: `to_rscu` divides by the grand total,
not the family total. -/
theorem uniform_example_rscu_is_half :
    (to_rscu exCounts exLabels).map (fun r => r.getD 42 0) = some (1 / 2) ∧
    CODON_ORDER.getD 42 "" = "AAA" ∧
    exLabels.getD 42 0 = 2 ∧
    ((1 : ℚ) / 2 ≠ 1) := by
  refine ⟨?_, by decide, by decide, by norm_num⟩
  have hsum : exCounts.sum = 40 := by simp [exCounts, CODON_ORDER]; norm_num
  have hne : exCounts.sum ≠ 0 := by rw [hsum]; norm_num
  rw [to_rscu, if_neg hne, Option.map_some']
  rw [getD_zipWith _ _ _ _ (by rw [exCounts, List.length_map]; decide)
    (by rw [exLabels, List.length_map]; decide)]
  have e1 : exCounts.getD 42 0 = 10 := by decide
  have e2 : exLabels.getD 42 0 = 2 := by decide
  simp only [e1, e2, hsum]
  norm_num

theorem groupSum_append {K V : Type} [DecidableEq K] [AddCommMonoid V]
    (a b : List (K × V)) (k : K) :
    groupSum (a ++ b) k = groupSum a k + groupSum b k := by
  rw [groupSum, groupSum, groupSum, List.filter_append, List.map_append,
    List.sum_append]

theorem foldl_mergeSums {K V : Type} [DecidableEq K] [AddCommMonoid V] :
    ∀ (cs : List (List (K × V))) (acc : K → V),
      (cs.map fun c => groupSum c).foldl mergeSums acc =
        fun k => acc k + groupSum cs.flatten k
  | [], acc => by
    funext k
    simp [groupSum]
  | c :: cs, acc => by
    rw [List.map_cons, List.foldl_cons, foldl_mergeSums cs]
    funext k
    rw [List.flatten_cons, groupSum_append]
    show mergeSums acc (groupSum c) k + groupSum cs.flatten k =
      acc k + (groupSum c k + groupSum cs.flatten k)
    rw [mergeSums, add_assoc]

/-- C9: chunked aggregation is chunk-size invariant: for every partition of
the rows into chunks, aggregating each chunk per key and merging the partial
sums pointwise (partial sums form a commutative monoid under merge) yields
exactly the per-key totals of aggregating the whole table at once.  Value type
instantiated as the 64 codon-count columns together with a `#CDS`-style row
counter. -/
theorem chunked_aggregation_invariant
    (chunks : List (List ((String × String) × ((Fin 64 → ℚ) × ℕ)))) :
    ((chunks.map fun c => groupSum c).foldl mergeSums fun _ => 0) =
      groupSum chunks.flatten := by
  rw [foldl_mergeSums]
  funext k
  simp

theorem sum_fin_sum_list {α : Type} :
    ∀ (l : List α) (f : α → Fin 64 → ℕ),
      (∑ i : Fin 64, (l.map fun a => f a i).sum) =
        (l.map fun a => ∑ i : Fin 64, f a i).sum
  | [], _ => by simp
  | a :: l, f => by
    simp only [List.map_cons, List.sum_cons]
    rw [Finset.sum_add_distrib, sum_fin_sum_list l f]

theorem aggTable_go :
    ∀ (rows : List ((String × String) × (Fin 64 → ℕ)))
      (m : String × String → (Fin 64 → ℕ) × ℕ) (k : String × String),
      ((rows.foldl aggStep m) k).2 =
          (m k).2 + (rows.filter fun r => decide (r.1 = k)).length ∧
        ∀ i : Fin 64, ((rows.foldl aggStep m) k).1 i =
          (m k).1 i + ((rows.filter fun r => decide (r.1 = k)).map fun r => r.2 i).sum
  | [], m, k => by simp
  | r :: rows, m, k => by
    rw [List.foldl_cons]
    obtain ⟨ih1, ih2⟩ := aggTable_go rows (aggStep m r) k
    by_cases hk : r.1 = k
    · have hs : aggStep m r k = (fun i => (m k).1 i + r.2 i, (m k).2 + 1) := by
        rw [aggStep, if_pos hk.symm]
      constructor
      · rw [ih1, hs]
        simp [List.filter_cons, hk]
        omega
      · intro i
        rw [ih2 i, hs]
        simp [List.filter_cons, hk]
        omega
    · have hs : aggStep m r k = m k := by
        rw [aggStep, if_neg fun h => hk h.symm]
      constructor
      · rw [ih1, hs]
        simp [List.filter_cons, hk]
      · intro i
        rw [ih2 i, hs]
        simp [List.filter_cons, hk]

/-- C10: every output row of the (Taxid, Organelle) aggregator satisfies:
its `#CDS` field counts exactly the input rows bearing its key, and its
`#Codons` field is the sum of its own 64 codon-count fields (equivalently,
the total codon count of all input rows with that key). -/
theorem agg_output_invariants (rows : List ((String × String) × (Fin 64 → ℕ)))
    (k : String × String) :
    (aggTable rows k).2 = (rows.filter fun r => decide (r.1 = k)).length ∧
    outCodons rows k = ∑ i : Fin 64, (aggTable rows k).1 i ∧
    outCodons rows k =
      ((rows.filter fun r => decide (r.1 = k)).map fun r => ∑ i : Fin 64, r.2 i).sum := by
  obtain ⟨h1, h2⟩ := aggTable_go rows (fun _ => (fun _ => 0, 0)) k
  refine ⟨?_, rfl, ?_⟩
  · rw [aggTable]
    simpa using h1
  · rw [outCodons, aggTable]
    calc ∑ i : Fin 64, ((rows.foldl aggStep fun _ => (fun _ => 0, 0)) k).1 i =
        ∑ i : Fin 64, ((rows.filter fun r => decide (r.1 = k)).map fun r => r.2 i).sum := by
          apply Finset.sum_congr rfl
          intro i _
          simpa using h2 i
      _ = ((rows.filter fun r => decide (r.1 = k)).map fun r => ∑ i : Fin 64, r.2 i).sum :=
          sum_fin_sum_list _ _

theorem listMean_replicate (n : ℕ) (c : ℚ) (hn : n ≠ 0) :
    listMean (List.replicate n c) = c := by
  have hne : List.replicate n c ≠ [] := fun h =>
    hn (by simpa using congrArg List.length h)
  exact listMean_all_eq hne fun x hx => (List.mem_replicate.mp hx).2

theorem intra_const_groups {gs : List (List ℚ)}
    (h : ∀ v ∈ gs, ∃ c, ∀ y ∈ v, y = c) : ∀ x ∈ intraOf gs, x = 0 := by
  intro x hx
  rcases List.mem_flatten.mp hx with ⟨w, hw, hxw⟩
  rcases List.mem_map.mp hw with ⟨v, hv, rfl⟩
  rcases List.mem_map.mp hxw with ⟨y, hy, rfl⟩
  rcases h v hv with ⟨c, hc⟩
  rw [hc y hy, listMean_all_eq (List.ne_nil_of_mem hy) hc, sub_self]

theorem ones64_sum : ones64.sum = 64 := by
  rw [ones64, List.sum_replicate]
  norm_num

theorem multiGroups_ones_eval : multiGroups ones64 realOrbits =
    [List.replicate 18 ((1 : ℚ) / 32), List.replicate 18 ((3 : ℚ) / 32),
     List.replicate 6 ((3 : ℚ) / 64), List.replicate 2 ((1 : ℚ) / 64),
     List.replicate 20 ((1 : ℚ) / 16)] := by
  have hA : rscuSN ones64 realOrbits =
      realOrbits.map fun ℓ : ℤ => (1 : ℚ) / 64 * ℓ := by
    rw [rscuSN, ones64_sum, show ones64 = List.replicate 64 (1 : ℚ) from rfl,
      zipWith_replicate_left _ _ 64 realOrbits (by decide)]
  rw [multiGroups, hA, groupsOf]
  have hzip := List.zip_map' (fun ℓ : ℤ => (1 : ℚ) / 64 * ℓ) id realOrbits
  rw [List.map_id] at hzip
  simp only [id_eq] at hzip
  rw [hzip]
  have hsnd : (realOrbits.map fun a : ℤ => ((1 : ℚ) / 64 * a, a)).map Prod.snd =
      realOrbits := by
    rw [List.map_map]
    exact List.map_id realOrbits
  rw [hsnd, show firstOccs realOrbits = [2, 6, 3, 1, 4] from by decide]
  have hcv : ∀ ℓ : ℤ,
      classValues (realOrbits.map fun a : ℤ => ((1 : ℚ) / 64 * a, a)) ℓ =
        (realOrbits.filter fun x => decide (x = ℓ)).map
          fun a : ℤ => (1 : ℚ) / 64 * a := by
    intro ℓ
    rw [classValues, List.filter_map, List.map_map]
    rfl
  simp only [List.map_cons, List.map_nil]
  rw [hcv 2, hcv 6, hcv 3, hcv 1, hcv 4]
  rw [show realOrbits.filter (fun x => decide (x = 2)) = List.replicate 18 2 from by decide,
    show realOrbits.filter (fun x => decide (x = 6)) = List.replicate 18 6 from by decide,
    show realOrbits.filter (fun x => decide (x = 3)) = List.replicate 6 3 from by decide,
    show realOrbits.filter (fun x => decide (x = 1)) = List.replicate 2 1 from by decide,
    show realOrbits.filter (fun x => decide (x = 4)) = List.replicate 20 4 from by decide]
  simp only [List.map_replicate]
  norm_num [List.filter_cons, List.length_replicate]

theorem intraVar_ones : sampleVar (intraOf (multiGroups ones64 realOrbits)) = 0 := by
  apply svar_all_eq
  rw [multiGroups_ones_eval]
  apply intra_const_groups
  intro v hv
  simp only [List.mem_cons, List.not_mem_nil, or_false] at hv
  rcases hv with rfl | rfl | rfl | rfl | rfl
  · exact ⟨(1 : ℚ) / 32, fun y hy => (List.mem_replicate.mp hy).2⟩
  · exact ⟨(3 : ℚ) / 32, fun y hy => (List.mem_replicate.mp hy).2⟩
  · exact ⟨(3 : ℚ) / 64, fun y hy => (List.mem_replicate.mp hy).2⟩
  · exact ⟨(1 : ℚ) / 64, fun y hy => (List.mem_replicate.mp hy).2⟩
  · exact ⟨(1 : ℚ) / 16, fun y hy => (List.mem_replicate.mp hy).2⟩

theorem interVar_ones_ne : sampleVar (interOf (multiGroups ones64 realOrbits)) ≠ 0 := by
  rw [multiGroups_ones_eval]
  have ha : (1 : ℚ) / 32 ∈ interOf
      [List.replicate 18 ((1 : ℚ) / 32), List.replicate 18 ((3 : ℚ) / 32),
       List.replicate 6 ((3 : ℚ) / 64), List.replicate 2 ((1 : ℚ) / 64),
       List.replicate 20 ((1 : ℚ) / 16)] := by
    apply List.mem_flatten.mpr
    refine ⟨(List.replicate 18 ((1 : ℚ) / 32)).map
      fun _ => listMean (List.replicate 18 ((1 : ℚ) / 32)),
      List.mem_map_of_mem _ (by simp), ?_⟩
    rw [List.map_replicate, listMean_replicate 18 _ (by norm_num)]
    simp [List.mem_replicate]
  have hb : (3 : ℚ) / 32 ∈ interOf
      [List.replicate 18 ((1 : ℚ) / 32), List.replicate 18 ((3 : ℚ) / 32),
       List.replicate 6 ((3 : ℚ) / 64), List.replicate 2 ((1 : ℚ) / 64),
       List.replicate 20 ((1 : ℚ) / 16)] := by
    apply List.mem_flatten.mpr
    refine ⟨(List.replicate 18 ((3 : ℚ) / 32)).map
      fun _ => listMean (List.replicate 18 ((3 : ℚ) / 32)),
      List.mem_map_of_mem _ (by simp), ?_⟩
    rw [List.map_replicate, listMean_replicate 18 _ (by norm_num)]
    simp [List.mem_replicate]
  exact svar_ne_zero ha hb (by norm_num)

theorem rowContrib_ones : rowContrib realOrbits ones64 = some 0 := by
  have hne : ones64.sum ≠ 0 := by rw [ones64_sum]; norm_num
  have hlen1 : 1 < (intraOf (multiGroups ones64 realOrbits)).length := by
    rw [multiGroups_ones_eval]
    simp [intraOf, List.length_flatten, List.length_map, List.length_replicate]
  have hlen2 : 1 < (interOf (multiGroups ones64 realOrbits)).length := by
    rw [multiGroups_ones_eval]
    simp [interOf, List.length_flatten, List.length_map, List.length_replicate]
  rw [rowContrib, if_neg hne, if_pos ⟨hlen1, hlen2⟩, if_neg interVar_ones_ne,
    intraVar_ones]
  simp [Real.sqrt_zero]

theorem rowContrib_zeros : rowContrib realOrbits zeros64 = none := by
  have h : zeros64.sum = 0 := by rw [zeros64, List.sum_replicate, smul_zero]
  rw [rowContrib, if_pos h]

theorem simpleNullP_ones_eval : simpleNullP [realOrbits] [ones64] = some 0 := by
  have ht : trialMedian [ones64] realOrbits = some 0 := by
    rw [trialMedian]
    have hfm : List.filterMap (rowContrib realOrbits) [ones64] = [0] := by
      simp [List.filterMap_cons, rowContrib_ones]
    rw [hfm]
    simp [npMedian, sortR, insertR]
  have hr : simpleNullRatios [realOrbits] [ones64] = [0] := by
    simp [simpleNullRatios, ht]
  rw [simpleNullP, hr]
  have hfilt : List.filter (fun x => decide (OBSERVED ≤ x)) [(0 : ℝ)] = [] := by
    rw [List.filter_cons,
      decide_eq_false (show ¬OBSERVED ≤ (0 : ℝ) from by rw [OBSERVED]; norm_num)]
    simp
  simp [hfilt]

theorem simpleNullP_zeros_eval : simpleNullP [realOrbits] [zeros64] = none := by
  have ht : trialMedian [zeros64] realOrbits = none := by
    rw [trialMedian]
    have hfm : List.filterMap (rowContrib realOrbits) [zeros64] = [] := by
      simp [List.filterMap_cons, rowContrib_zeros]
    rw [hfm]
    simp
  have hr : simpleNullRatios [realOrbits] [zeros64] = [] := by
    simp [simpleNullRatios, ht]
  rw [simpleNullP, hr]
  simp

/-- C5 (counterexample): a run of `simple_null_test.py`'s p-value computation
with one trial (the identity shuffle of the canonical labels) over one
uniform-count organism reports p = 0 — the code divides the raw extreme-trial
count by the trial count with no +1/+1 Laplace correction, so the reported
p-value is not strictly positive and differs from the claimed
(0 + 1)/(1 + 1). -/
theorem simple_null_pvalue_zero_run :
    simpleNullP [realOrbits] [ones64] = some 0 ∧ ¬((0 : ℝ) < 0) ∧
    (0 : ℝ) ≠ (0 + 1) / (1 + 1) :=
  ⟨simpleNullP_ones_eval, by norm_num, by norm_num⟩

/-- C5 (amended): `fc_checker.py`'s p-value
`(count of finite null values ≤ observed + 1) / (number of finite null values
+ 1)` is strictly positive for every null list and every observed statistic
(the denominator counts the finite trials, which equals N + 1 only when no
trial was dropped); `simple_null_test.py`'s uncorrected fraction can be 0. -/
theorem fc_pvalue_laplace_positive (null : List ℝ) (med : ℝ) : 0 < pFc null med := by
  rw [pFc]
  positivity

/-- C6: `simple_null_test.py` is not deterministic given seed and trial count:
with the identical seeded shuffle stream (one trial, canonical labels) and the
same N, two possible values of the unseeded row sample (`df.sample` at line
18 uses global random state) yield different reported p-values — NaN (`none`)
for the all-zero sample and 0 for the uniform sample. -/
theorem simple_null_not_seed_deterministic :
    simpleNullP [realOrbits] [zeros64] = none ∧
    simpleNullP [realOrbits] [ones64] = some 0 ∧
    simpleNullP [realOrbits] [zeros64] ≠ simpleNullP [realOrbits] [ones64] := by
  refine ⟨simpleNullP_zeros_eval, simpleNullP_ones_eval, ?_⟩
  rw [simpleNullP_zeros_eval, simpleNullP_ones_eval]
  simp
